import Mathlib

/-!
# BGP anomaly-detection engine: a shallow embedding

This file embeds the detection core of the bgp-tag repository in Lean 4 and
proves the specification claims about it.  The Python sources embedded here
are the five detectors (flap, loop, MOAS, origin hijack, subprefix hijack),
the chunking loops of their `main` entry points, the day-partitioned update
loaders, and the event sinks.

Modelling conventions:
* timestamps are seconds since the epoch (`Nat`);
* a pandas DataFrame of update rows is a `List` of records, in row order;
* `groupby(key, sort=False)` is grouping by first-seen key order
  (`uniqueKeep` of the mapped keys, each group recovered by `filter`);
* SQL tables are lists of rows; `INSERT` appends;
* the per-date `update_entries_YYYYMMDD` tables are an association list
  from day number (`timestamp / 86400`) to the rows of that day;
* Python floats used for `top_ratio` are modelled as `ℚ`.
-/

namespace BgpTag

/-- The two kinds of update rows produced by exploding a raw update:
announce (`'A'`) and withdraw (`'W'`). -/
inductive EKind where
  | A : EKind
  | W : EKind
deriving DecidableEq

/-- One exploded update row as used by the flap detector: the columns
`timestamp`, `prefix`, `peer_as`, `event`, `as_path` of the working frame. -/
structure FlapRec where
  ts : Nat
  pfx : String
  peer_as : Int
  event : EKind
  as_path : List Int
deriving DecidableEq

/-- One exploded update row as used by the loop detector: the columns
`timestamp`, `prefix`, `peer_as`, `as_path`, `state`. -/
structure LoopRec where
  ts : Nat
  pfx : String
  peer_as : Int
  as_path : List Int
  state : EKind
deriving DecidableEq

/-- One exploded announce row as used by the hijack-family detectors:
the columns `timestamp`, `peer_as`, `as_path`, `prefix`. -/
structure ARec where
  ts : Nat
  peer_as : Int
  as_path : List Int
  pfx : String
deriving DecidableEq

/-- Scan keeping every element not seen before (auxiliary of
`uniqueKeep`, carrying the set of already-seen elements). -/
def uniqueKeepAux {α : Type} [DecidableEq α] (seen : List α) : List α → List α
  | [] => []
  | a :: l => if a ∈ seen then uniqueKeepAux seen l else a :: uniqueKeepAux (a :: seen) l

/-- First occurrence of each distinct element, in order of first
appearance.  This is the key order of `pandas.groupby(..., sort=False)`
and the value of `set(...)` where only the cardinality matters. -/
def uniqueKeep {α : Type} [DecidableEq α] (l : List α) : List α :=
  uniqueKeepAux [] l

/-- Minimum of a list of timestamps (`Series.min()`); `0` on an empty
frame, which the detectors never consult. -/
def minTs : List Nat → Nat
  | [] => 0
  | a :: l => l.foldl Nat.min a

/-- Maximum of a list of timestamps (`Series.max()`). -/
def maxTs : List Nat → Nat
  | [] => 0
  | a :: l => l.foldl Nat.max a

/-! ## Loop detector (`server/scripts/scenarios/loop/loop.py`) -/

/-- `has_as_loop` from `loop.py`: an AS path "has a loop" when it is a
non-empty list whose length differs from the cardinality of its element
set, i.e. when ANY AS number occurs twice, consecutively or not. -/
def has_as_loop (as_path : List Int) : Bool :=
  if as_path.isEmpty then false
  else as_path.length ≠ (uniqueKeep as_path).length

/-- One row of the per-prefix loop summary emitted by
`analyze_loop_anomalies`. -/
structure LoopSummary where
  pfx : String
  as_path : List Int
  total_events : Nat
  first_update : Nat
  last_update : Nat
deriving DecidableEq

/-- `analyze_loop_anomalies` from `loop.py`: group rows by prefix
(first-seen order); for a group containing at least one path with
`has_as_loop`, emit one summary carrying the first such path and the
group's row count and time range. -/
def analyze_loop_anomalies (rs : List LoopRec) : List LoopSummary :=
  (uniqueKeep (rs.map LoopRec.pfx)).filterMap (fun p =>
    let g := rs.filter (fun r => r.pfx == p)
    let loop_paths := g.filter (fun r => has_as_loop r.as_path)
    match loop_paths with
    | [] => none
    | r0 :: _ =>
      some { pfx := p
             as_path := r0.as_path
             total_events := g.length
             first_update := minTs (g.map LoopRec.ts)
             last_update := maxTs (g.map LoopRec.ts) })

/-! ## Flap detector
(`server/scripts/scenarios/flap/flap.py`, threshold 10 s / 5 transitions,
and `bgp-mcp/server/scripts/scenarios/flap/flap.py`, 60 s / 2 transitions) -/

/-- The comma-joined decimal rendering of an AS path,
`','.join(map(str, x))`, used by both flap variants to compare paths. -/
def path_str (l : List Int) : String :=
  String.intercalate "," (l.map toString)

/-- Classical flap condition on a consecutive pair of one
`(prefix, peer_as)` group: the event kinds differ and the pair is at most
`flap_threshold_seconds` apart. -/
def classical_flap (th : Nat) (prev cur : FlapRec) : Bool :=
  (cur.event != prev.event) && decide ((cur.ts : Int) - (prev.ts : Int) ≤ (th : Int))

/-- Path-change flap condition on a consecutive pair: both rows are
announces at most `flap_threshold_seconds` apart whose rendered AS paths
differ. -/
def path_flap (th : Nat) (prev cur : FlapRec) : Bool :=
  (prev.event == EKind.A) && (cur.event == EKind.A) &&
    decide ((cur.ts : Int) - (prev.ts : Int) ≤ (th : Int)) &&
    (path_str cur.as_path != path_str prev.as_path)

/-- Whether a consecutive pair counts as a flap transition in the
`src/server` variant: `classical_flap` sets `flap_type` 1 and `path_flap`
sets `flap_type` 2 unconditionally; the `consider_path_change` parameter
is accepted but never read by the function body. -/
def is_flip_server (th : Nat) (consider_path_change : Bool) (prev cur : FlapRec) : Bool :=
  classical_flap th prev cur || path_flap th prev cur

/-- Whether a consecutive pair counts as a flap transition in the
`src/bgp-mcp` variant: `flip_path` is computed only when
`consider_path_change` is set, otherwise it is `False`. -/
def is_flip_mcp (th : Nat) (consider_path_change : Bool) (prev cur : FlapRec) : Bool :=
  classical_flap th prev cur || (consider_path_change && path_flap th prev cur)

/-- Number of flap transitions of one timestamp-sorted group: the count
of consecutive pairs satisfying the flip predicate (the groupwise `shift`
comparison of the source). -/
def count_flips (isF : FlapRec → FlapRec → Bool) (g : List FlapRec) : Nat :=
  (g.zip g.tail).countP (fun pr => isF pr.1 pr.2)

/-- Stable sort of one group by timestamp
(`sort_values(['prefix','peer_as','timestamp'])` restricted to a group;
pandas sorting is stable, so ties keep ingestion order). -/
def sortByTs (g : List FlapRec) : List FlapRec :=
  g.insertionSort (fun a b => a.ts ≤ b.ts)

/-- One row of the flap summary emitted by `analyze_flap_anomalies`. -/
structure FlapSummary where
  pfx : String
  peer_as : Int
  total_events : Nat
  flap_count : Nat
  first_update : Nat
  last_update : Nat
deriving DecidableEq

/-- `analyze_flap_anomalies` of the `src/server` variant: group by
`(prefix, peer_as)`, count flap transitions with `is_flip_server`, and
report the groups with at least `min_flap_transitions` of them. -/
def analyze_flap_anomalies_server (th mft : Nat) (consider_path_change : Bool)
    (df : List FlapRec) : List FlapSummary :=
  (uniqueKeep (df.map (fun r => (r.pfx, r.peer_as)))).filterMap (fun k =>
    let g := sortByTs (df.filter (fun r => (r.pfx == k.1) && (r.peer_as == k.2)))
    let fc := count_flips (is_flip_server th consider_path_change) g
    if mft ≤ fc then
      some { pfx := k.1
             peer_as := k.2
             total_events := g.length
             flap_count := fc
             first_update := minTs (g.map FlapRec.ts)
             last_update := maxTs (g.map FlapRec.ts) }
    else none)

/-- `analyze_flap_anomalies` of the `src/bgp-mcp` variant, identical but
for the flip predicate honouring `consider_path_change`. -/
def analyze_flap_anomalies_mcp (th mft : Nat) (consider_path_change : Bool)
    (df : List FlapRec) : List FlapSummary :=
  (uniqueKeep (df.map (fun r => (r.pfx, r.peer_as)))).filterMap (fun k =>
    let g := sortByTs (df.filter (fun r => (r.pfx == k.1) && (r.peer_as == k.2)))
    let fc := count_flips (is_flip_mcp th consider_path_change) g
    if mft ≤ fc then
      some { pfx := k.1
             peer_as := k.2
             total_events := g.length
             flap_count := fc
             first_update := minTs (g.map FlapRec.ts)
             last_update := maxTs (g.map FlapRec.ts) }
    else none)

/-! ## Origin extraction shared by the hijack-family detectors
(`moas.py`, `origin_hijack.py`, `subprefix_hijack.py`) -/

/-- `extract_origin`: `None` on an empty (or null, normalised to empty)
AS path, otherwise the last element `as_path[-1]`. -/
def extract_origin (as_path : List Int) : Option Int :=
  if as_path.isEmpty then none
  else as_path.getLast?

/-- The rows that survive the `origin_as` not-null filter applied by all
three hijack-family detectors before grouping. -/
def announce_pool (rs : List ARec) : List ARec :=
  rs.filter (fun r => (extract_origin r.as_path).isSome)

/-- The per-prefix group of one detection window: the filtered rows whose
prefix is `p`. -/
def groupOf (rs : List ARec) (p : String) : List ARec :=
  (announce_pool rs).filter (fun r => r.pfx == p)

/-- Origin AS of every row of a group (all are defined after the filter). -/
def originsOf (g : List ARec) : List Int :=
  g.filterMap (fun r => extract_origin r.as_path)

/-- Distinct peers of a group, in first-seen order (`Series.nunique`
counts this list). -/
def peersOf (g : List ARec) : List Int :=
  uniqueKeep (g.map ARec.peer_as)

/-- Ascending sort of AS numbers (`sorted(...)`). -/
def intSort (l : List Int) : List Int :=
  l.insertionSort (· ≤ ·)

/-- Per-origin evidence: for each observed origin in ascending order
(`groupby('origin_as')` sorts its keys), the sorted distinct peers and
the event count of that origin. -/
def per_origin_evidence (g : List ARec) : List (Int × List Int × Nat) :=
  (intSort (uniqueKeep (originsOf g))).map (fun o =>
    let gg := g.filter (fun r => extract_origin r.as_path == some o)
    (o, intSort (uniqueKeep (gg.map ARec.peer_as)), gg.length))

/-! ## MOAS detector (`server/scripts/scenarios/hijack/moas.py`) -/

/-- One MOAS event row. -/
structure MoasEvent where
  time : Nat
  pfx : String
  event_type : String
  origin_asns : List Int
  distinct_peers : Nat
  total_events : Nat
  first_update : Nat
  last_update : Nat
  per_origin : List (Int × List Int × Nat)
deriving DecidableEq

/-- `detect_moas_whole_window`: group filtered announces by prefix; a
group qualifies when it has at least two distinct origins, at least
`min_peers` distinct peers and at least `min_events` rows; emit one event
per qualifying group. -/
def detect_moas_whole_window (min_peers min_events : Nat) (rs : List ARec) : List MoasEvent :=
  let cur := announce_pool rs
  (uniqueKeep (cur.map ARec.pfx)).filterMap (fun p =>
    let g := cur.filter (fun r => r.pfx == p)
    let origins := uniqueKeep (originsOf g)
    if origins.length < 2 then none
    else
      let distinct_peers := (peersOf g).length
      let total_events := g.length
      if distinct_peers < min_peers ∨ total_events < min_events then none
      else
        some { time := minTs (g.map ARec.ts)
               pfx := p
               event_type := "MOAS"
               origin_asns := intSort origins
               distinct_peers := distinct_peers
               total_events := total_events
               first_update := minTs (g.map ARec.ts)
               last_update := maxTs (g.map ARec.ts)
               per_origin := per_origin_evidence g })

/-! ## Origin-hijack detector (`server/scripts/scenarios/hijack/origin_hijack.py`) -/

/-- Dominant origin of a multiset of origins
(`value_counts().idxmax()`), earlier-seen origin winning ties. -/
def argmaxCount (os : List Int) : Int :=
  match uniqueKeep os with
  | [] => 0
  | o :: rest => rest.foldl (fun best c => if os.count best < os.count c then c else best) o

/-- Baseline lookup (`baseline_map`, a prefix-to-origin dictionary). -/
def lookup_baseline (baseline : List (String × Int)) (p : String) : Option Int :=
  (baseline.find? (fun b => b.1 == p)).map Prod.snd

/-- One origin-hijack event row. -/
structure HijackEvent where
  time : Nat
  pfx : String
  event_type : String
  origin_asns : List Int
  distinct_peers : Nat
  total_events : Nat
  first_update : Nat
  last_update : Nat
  baseline_origin : Option Int
  top_origin : Int
  top_ratio : ℚ
  per_origin : List (Int × List Int × Nat)
deriving DecidableEq

/-- `detect_origin_hijack_whole_window`: per prefix group of the filtered
announces, require `min_events` rows and `min_peers` peers, compute the
dominant origin and its window share, skip prefixes without a baseline
when `require_baseline`, then emit iff the baseline is absent or the
dominant origin differs from it with share at least `new_origin_ratio`. -/
def detect_origin_hijack_whole_window (require_baseline : Bool) (new_origin_ratio : ℚ)
    (min_peers min_events : Nat) (baseline : List (String × Int)) (rs : List ARec) :
    List HijackEvent :=
  let cur := announce_pool rs
  (uniqueKeep (cur.map ARec.pfx)).filterMap (fun p =>
    let g := cur.filter (fun r => r.pfx == p)
    let total_events := g.length
    if total_events < min_events then none
    else
      let distinct_peers := (peersOf g).length
      if distinct_peers < min_peers then none
      else
        let os := originsOf g
        let top_origin := argmaxCount os
        let top_ratio : ℚ := (os.count top_origin : ℚ) / (total_events : ℚ)
        let baseline_origin := lookup_baseline baseline p
        if require_baseline && baseline_origin.isNone then none
        else if baseline_origin.isNone ||
            (decide (some top_origin ≠ baseline_origin) && decide (new_origin_ratio ≤ top_ratio)) then
          some { time := minTs (g.map ARec.ts)
                 pfx := p
                 event_type := "ORIGIN"
                 origin_asns := [top_origin]
                 distinct_peers := distinct_peers
                 total_events := total_events
                 first_update := minTs (g.map ARec.ts)
                 last_update := maxTs (g.map ARec.ts)
                 baseline_origin := baseline_origin
                 top_origin := top_origin
                 top_ratio := top_ratio
                 per_origin := per_origin_evidence g }
        else none)

/-! ## Subprefix-hijack detector (`server/scripts/scenarios/hijack/subprefix_hijack.py`) -/

/-- An IPv4 CIDR network: a host address masked to `len` leading bits.
(The source parses with `ipaddress.ip_network(..., strict=False)`; the
IPv6 case is identical per address family and is not modelled.) -/
structure Net where
  addr : Nat
  len : Nat
deriving DecidableEq

/-- Split a string at every occurrence of one separator character
(auxiliary scan over the character list). -/
def splitOnCharAux (c : Char) : List Char → List Char → List String
  | [], acc => [String.mk acc.reverse]
  | ch :: rest, acc =>
    if ch = c then String.mk acc.reverse :: splitOnCharAux c rest []
    else splitOnCharAux c rest (ch :: acc)

/-- `s.split(sep)` for a one-character separator. -/
def splitOnChar (c : Char) (s : String) : List String :=
  splitOnCharAux c s.data []

/-- Parse a non-empty all-digit string as a decimal number (the `int`
conversion inside `ipaddress` parsing). -/
def decimal? (s : String) : Option Nat :=
  if s.data ≠ [] ∧ s.data.all Char.isDigit then
    some (s.data.foldl (fun n c => n * 10 + (c.toNat - 48)) 0)
  else none

/-- Parse one dotted-quad octet: decimal digits, no leading zero, at
most `255`. -/
def parse_octet (s : String) : Option Nat :=
  match decimal? s with
  | none => none
  | some n =>
    if 1 < s.data.length && s.data.head? == some '0' then none
    else if n ≤ 255 then some n else none

/-- Parse a dotted-quad IPv4 address into its 32-bit value. -/
def parse_ip (s : String) : Option Nat :=
  match (splitOnChar '.' s).mapM parse_octet with
  | some [a, b, c, d] => some (((a * 256 + b) * 256 + c) * 256 + d)
  | _ => none

/-- Parse a prefix length (no leading zero, at most `32`). -/
def parse_prefix_len (s : String) : Option Nat :=
  match decimal? s with
  | none => none
  | some n =>
    if 1 < s.data.length && s.data.head? == some '0' then none
    else if n ≤ 32 then some n else none

/-- Mask the host bits away (`strict=False` semantics). -/
def mask_net (ip len : Nat) : Net :=
  ⟨ip / 2 ^ (32 - len) * 2 ^ (32 - len), len⟩

/-- `ipaddress.ip_network(s, strict=False)` on IPv4 strings: either a
bare address (length 32) or `address/len`; anything else fails. -/
def ip_network (s : String) : Option Net :=
  match splitOnChar '/' s with
  | [a] => (parse_ip a).map (fun ip => mask_net ip 32)
  | [a, l] =>
    match parse_ip a, parse_prefix_len l with
    | some ip, some len => some (mask_net ip len)
    | _, _ => none
  | _ => none

/-- `sup.supernet_of(pfx)`: `sup` is no longer than `pfx` and `pfx`'s
address masked to `sup`'s length is `sup`'s address. -/
def supernet_of (sup sub : Net) : Bool :=
  decide (sup.len ≤ sub.len) &&
    (sub.addr / 2 ^ (32 - sup.len) * 2 ^ (32 - sup.len) == sup.addr)

/-- Add an origin to the origin set of network `n` in the bucket's
prefix dictionary (`prefixes.setdefault(pfx, set()).add(origin)`). -/
def add_origin (m : List (Net × List Int)) (n : Net) (o : Int) : List (Net × List Int) :=
  match m with
  | [] => [(n, [o])]
  | (n', os) :: rest =>
    if n' == n then (n', if o ∈ os then os else os ++ [o]) :: rest
    else (n', os) :: add_origin rest n o

/-- One step of building the bucket's prefix dictionary: a row whose
prefix string parses contributes its origin to that network's origin
set; a row that fails CIDR parsing is skipped (`except: continue`). -/
def prefix_step (m : List (Net × List Int)) (r : ARec) : List (Net × List Int) :=
  match ip_network r.pfx, extract_origin r.as_path with
  | some n, some o => add_origin m n o
  | _, _ => m

/-- The bucket's prefix dictionary
(`prefixes.setdefault(ip_network(row.prefix), set()).add(origin)` over
the bucket's rows, skipping unparseable prefixes). -/
def prefix_map (g : List ARec) : List (Net × List Int) :=
  g.foldl prefix_step []

/-- Origin set recorded for network `n` in the dictionary. -/
def findOrigins (m : List (Net × List Int)) (n : Net) : List Int :=
  ((m.find? (fun entry => entry.1 == n)).map Prod.snd).getD []

/-- `issubset` on origin sets. -/
def subsetOf (xs ys : List Int) : Bool :=
  xs.all (fun x => ys.contains x)

/-- Iteration order of the inner prefix loop:
`sorted(prefixes, key=(prefixlen, network_address))`. -/
def sortSub (ns : List Net) : List Net :=
  ns.insertionSort (fun a b => a.len < b.len ∨ (a.len = b.len ∧ a.addr ≤ b.addr))

/-- Iteration order of the supernet loop: `sorted(prefixes, key=prefixlen)`. -/
def sortSup (ns : List Net) : List Net :=
  ns.insertionSort (fun a b => a.len ≤ b.len)

/-- Five-minute time bucket of a timestamp (`dt.floor('5min')`). -/
def bucket_of (ts : Nat) : Nat :=
  ts / 300 * 300

/-- One subprefix-hijack event row. -/
structure SubprefixEvent where
  time : Nat
  parent : Net
  more_specific : Net
  sub_origins : List Int
  sup_origins : List Int
  distinct_peers : Nat
  total_events : Nat
  first_update : Nat
  last_update : Nat
deriving DecidableEq

/-- `detect_subprefix_hijack`: bucket the filtered announces into
five-minute buckets; in each bucket build the prefix dictionary, and for
every ordered pair with a strictly-shorter supernet containing a
more-specific network, emit an event iff the more-specific network's
origin set is not a subset of the supernet's. -/
def detect_subprefix_hijack (rs : List ARec) : List SubprefixEvent :=
  let dfb := announce_pool rs
  (uniqueKeep (dfb.map (fun r => bucket_of r.ts))).flatMap (fun b =>
    let g := dfb.filter (fun r => bucket_of r.ts == b)
    let m := prefix_map g
    (sortSub (m.map Prod.fst)).flatMap (fun pfx =>
      (sortSup (m.map Prod.fst)).filterMap (fun sup =>
        if decide (sup.len < pfx.len) && supernet_of sup pfx then
          let sup_origins := findOrigins m sup
          let sub_origins := findOrigins m pfx
          if subsetOf sub_origins sup_origins then none
          else
            some { time := b
                   parent := sup
                   more_specific := pfx
                   sub_origins := intSort sub_origins
                   sup_origins := intSort sup_origins
                   distinct_peers := (uniqueKeep (g.map ARec.peer_as)).length
                   total_events := g.length
                   first_update := minTs (g.map ARec.ts)
                   last_update := maxTs (g.map ARec.ts) }
        else none)))

/-! ## Event sinks (`save_events` in `moas.py`, `save_to_timescale` in
`flap.py`) -/

/-- A persisted row of the unified `hijack_events` table, restricted to
the columns of the composite dedup key. -/
structure HijackRow where
  time : Nat
  pfx : String
  event_type : String
  origin_asns : List Int
deriving DecidableEq

/-- The composite identity of a persisted event:
`(time, prefix, origin identity, event_type)`. -/
def row_key (r : HijackRow) : Nat × String × List Int × String :=
  (r.time, r.pfx, r.origin_asns, r.event_type)

/-- `save_events` from `moas.py`: a plain `INSERT INTO hijack_events ...
VALUES %s` — the batch is appended to the table; there is no key check
and no `ON CONFLICT` clause. -/
def save_events (store rows : List HijackRow) : List HijackRow :=
  store ++ rows

/-- A persisted row of `flap_analysis_results`, restricted to the
identity columns. -/
structure FlapRow where
  time : Nat
  pfx : String
  peer_as : Int
deriving DecidableEq

/-- The batches of at most `n` rows the flap sink writes one at a time
(`for i in range(0, len(df), batch_size)`). -/
def batches {α : Type} (n : Nat) (l : List α) : List (List α) :=
  if l.isEmpty then []
  else if h : 0 < n then l.take n :: batches n (l.drop n)
  else [l]
termination_by l.length
decreasing_by
  rename_i hne
  simp only [List.isEmpty_iff] at hne
  have hl : 0 < l.length := List.length_pos.mpr hne
  simp only [List.length_drop]
  omega

/-- `save_to_timescale` from `flap.py`: append the summaries to the
table in batches of 100 (`to_sql(..., if_exists='append')`): again no
key check and no conflict clause. -/
def save_to_timescale (store : List FlapRow) (summaries : List FlapRow) : List FlapRow :=
  (batches 100 summaries).foldl (fun st b => st ++ b) store

/-! ## Update loaders over day-partitioned tables -/

/-- Look up the `update_entries_YYYYMMDD` table of one day in the store;
`none` models a missing partition (the query raises). -/
def lookup_day {α : Type} (db : List (Nat × α)) (d : Nat) : Option α :=
  (db.find? (fun entry => entry.1 == d)).map Prod.snd

/-- `day_range` from the hijack-family scripts: every calendar day from
the start day to the end day inclusive. -/
def day_range (s e : Nat) : List Nat :=
  (List.range (e / 86400 - s / 86400 + 1)).map (fun i => s / 86400 + i)

/-- Timestamp sort of announce rows (`ORDER BY timestamp` /
`sort_values('timestamp')`, stable). -/
def sortByTsA (g : List ARec) : List ARec :=
  g.insertionSort (fun a b => a.ts ≤ b.ts)

/-- `load_announces` from `moas.py` / `origin_hijack.py` /
`subprefix_hijack.py`: query every day partition covering the window;
a day whose fetch fails contributes nothing (`except: warn; continue`),
and the surviving frames are concatenated and sorted by timestamp. -/
def load_announces (db : List (Nat × List ARec)) (s e : Nat) : List ARec :=
  sortByTsA ((day_range s e).flatMap (fun d =>
    match lookup_day db d with
    | none => []
    | some rows =>
      rows.filter (fun r => decide (s ≤ r.ts) && decide (r.ts < e))))

/-- `fetch_bgp_updates` from `flap.py` (and `loop.py`): queries only the
partition of the window's start date, with no exception handling — a
missing partition propagates as an error and aborts the caller. -/
def fetch_bgp_updates (db : List (Nat × List FlapRec)) (s e : Nat) :
    Except String (List FlapRec) :=
  match lookup_day db (s / 86400) with
  | none => Except.error "relation does not exist"
  | some rows =>
    Except.ok (sortByTs (rows.filter (fun r => decide (s ≤ r.ts) && decide (r.ts ≤ e))))

/-! ## Window manager: the chunking loop of the `main` entry points -/

/-- The chunk sequence of `while current_time < end_dt: chunk_end =
min(current_time + step, end_dt); ...; current_time = chunk_end`. -/
def chunks (s e step : Nat) : List (Nat × Nat) :=
  if h : s < e ∧ 0 < step then
    (s, min (s + step) e) :: chunks (min (s + step) e) e step
  else []
termination_by e - s
decreasing_by
  have h1 : s < e := h.1
  have h2 : 0 < step := h.2
  omega

/-- The `main` of the `src/server` flap script: iterate hourly chunks,
fetch each chunk's rows, analyze non-empty chunks and append the
summaries; the time range is never validated, so `end <= start` simply
yields an empty run.  A fetch failure (missing partition) escapes as an
error.  Returns the processed chunks and the number of saved summaries. -/
def flap_run (db : List (Nat × List FlapRec)) (s e : Nat) (consider_path_change : Bool) :
    Except String (List (Nat × Nat) × Nat) :=
  if h : s < e then
    let c := min (s + 3600) e
    match fetch_bgp_updates db s c with
    | Except.error msg => Except.error msg
    | Except.ok df =>
      let saved :=
        if df.isEmpty then 0
        else (analyze_flap_anomalies_server 10 5 consider_path_change df).length
      match flap_run db c e consider_path_change with
      | Except.error msg => Except.error msg
      | Except.ok (cs, n) => Except.ok ((s, c) :: cs, saved + n)
  else Except.ok ([], 0)
termination_by e - s
decreasing_by
  omega

/-! ## Concrete inputs used by witnesses and counterexamples -/

/-- A five-announce window for one prefix: origin 200 from peers
10, 20, 30 (four announces) and origin 100 from peer 40 (one announce). -/
def ohw_input : List ARec :=
  [⟨1, 10, [1, 200], "198.51.100.0/24"⟩,
   ⟨2, 20, [1, 200], "198.51.100.0/24"⟩,
   ⟨3, 10, [1, 200], "198.51.100.0/24"⟩,
   ⟨4, 30, [1, 200], "198.51.100.0/24"⟩,
   ⟨5, 40, [1, 100], "198.51.100.0/24"⟩]

/-- A baseline recording origin 100 for that prefix. -/
def ohw_baseline : List (String × Int) := [("198.51.100.0/24", 100)]

/-- One bucket with a supernet announced by origin 100 and a
more-specific subnet announced by origin 200. -/
def spw_input : List ARec :=
  [⟨10, 10, [1, 100], "10.0.0.0/16"⟩,
   ⟨20, 20, [1, 200], "10.0.1.0/24"⟩]

/-! ## Helper lemmas -/

theorem mem_uniqueKeepAux {α : Type} [DecidableEq α] (seen : List α) (l : List α) (a : α) :
    a ∈ uniqueKeepAux seen l ↔ a ∈ l ∧ a ∉ seen := by
  induction l generalizing seen with
  | nil => simp [uniqueKeepAux]
  | cons b l ih =>
    simp only [uniqueKeepAux, List.mem_cons]
    by_cases hb : b ∈ seen
    · rw [if_pos hb, ih]
      constructor
      · rintro ⟨h1, h2⟩; exact ⟨Or.inr h1, h2⟩
      · rintro ⟨h1 | h1, h2⟩
        · subst h1; exact absurd hb h2
        · exact ⟨h1, h2⟩
    · rw [if_neg hb]
      simp only [List.mem_cons, ih, List.mem_cons]
      constructor
      · rintro (rfl | ⟨h1, h2⟩)
        · exact ⟨Or.inl rfl, hb⟩
        · exact ⟨Or.inr h1, fun h => h2 (Or.inr h)⟩
      · rintro ⟨rfl | h1, h2⟩
        · exact Or.inl rfl
        · rcases eq_or_ne a b with rfl | hab
          · exact Or.inl rfl
          · exact Or.inr ⟨h1, fun h => by
              rcases h with h | h
              · exact hab h
              · exact h2 h⟩

theorem nodup_uniqueKeepAux {α : Type} [DecidableEq α] (seen : List α) (l : List α) :
    (uniqueKeepAux seen l).Nodup := by
  induction l generalizing seen with
  | nil => simp [uniqueKeepAux]
  | cons b l ih =>
    simp only [uniqueKeepAux]
    by_cases hb : b ∈ seen
    · rw [if_pos hb]; exact ih seen
    · rw [if_neg hb]
      refine List.Nodup.cons ?_ (ih (b :: seen))
      intro hmem
      exact ((mem_uniqueKeepAux _ _ _).mp hmem).2 (List.mem_cons_self _ _)

theorem mem_uniqueKeep {α : Type} [DecidableEq α] (l : List α) (a : α) :
    a ∈ uniqueKeep l ↔ a ∈ l := by
  simp [uniqueKeep, mem_uniqueKeepAux]

theorem nodup_uniqueKeep {α : Type} [DecidableEq α] (l : List α) :
    (uniqueKeep l).Nodup :=
  nodup_uniqueKeepAux [] l

/-- Existence of an event produced under key `p` by a keyed `filterMap`,
when the producer tags every event with its key. -/
theorem exists_mem_filterMap_key {κ E : Type} (K : List κ) (f : κ → Option E)
    (keyOf : E → κ) (p : κ) (hkey : ∀ q e, f q = some e → keyOf e = q) :
    (∃ e ∈ K.filterMap f, keyOf e = p) ↔ p ∈ K ∧ (f p).isSome := by
  constructor
  · rintro ⟨e, hmem, rfl⟩
    obtain ⟨q, hq, hfq⟩ := List.mem_filterMap.mp hmem
    rw [hkey q e hfq]
    exact ⟨hq, by rw [hfq]; rfl⟩
  · rintro ⟨hp, hsome⟩
    obtain ⟨e, he⟩ := Option.isSome_iff_exists.mp hsome
    exact ⟨e, List.mem_filterMap.mpr ⟨p, hp, he⟩, hkey p e he⟩

/-- Count of events produced under key `p` by a keyed `filterMap` over a
list of distinct keys. -/
theorem countP_filterMap_key {κ E : Type} [DecidableEq κ] (K : List κ) (f : κ → Option E)
    (keyOf : E → κ) (p : κ) (hnd : K.Nodup) (hkey : ∀ q e, f q = some e → keyOf e = q) :
    (K.filterMap f).countP (fun e => keyOf e == p) =
      if p ∈ K ∧ (f p).isSome then 1 else 0 := by
  induction K with
  | nil => simp
  | cons q K ih =>
    have hndK : K.Nodup := hnd.of_cons
    have hq : q ∉ K := (List.nodup_cons.mp hnd).1
    rw [List.filterMap_cons]
    cases hfq : f q with
    | none =>
      rw [ih hndK]
      by_cases hpq : p = q
      · subst hpq
        simp [hfq, Option.isSome_none]
      · simp [List.mem_cons, hpq]
    | some e =>
      have hkq : keyOf e = q := hkey q e hfq
      rw [List.countP_cons, ih hndK]
      by_cases hpq : p = q
      · subst hpq
        have : p ∉ K := hq
        simp [hkq, hfq, this]
      · have : ¬(keyOf e == p) = true := by
          simp [hkq]
          exact fun h => hpq h.symm
        simp only [this, if_false, add_zero]
        simp [List.mem_cons, hpq]

/-! ## Claim C1 -/

/-- Claim C1 (code bug): the specification requires that consecutive
repetition (AS prepending, e.g. `[1,2,2,3]`) is never flagged and that a
loop is reported only for a non-consecutive repeat, with `repeat_as`,
`first_idx` and `second_idx` positions.  The shipped `has_as_loop`
flags ANY duplicate AS — `has_as_loop [1,2,2,3]` is `true` — and
`analyze_loop_anomalies` accordingly emits a summary for a prefix whose
only path is the prepended `[1,2,2,3]`; the per-record positional
`LoopEvent` fields declared by the repository's own
`loop_analysis_results` schema are never produced. -/
theorem claim_C1_prepending_flagged :
    has_as_loop [1, 2, 2, 3] = true ∧
    has_as_loop [1, 2, 3, 2] = true ∧
    has_as_loop [1, 2, 3] = false ∧
    (analyze_loop_anomalies
        [⟨0, "192.0.2.0/24", 64500, [1, 2, 2, 3], EKind.A⟩]).length = 1 := by
  decide

/-! ## Claim C2 -/

/-- Claim C2 (counterexample): in the `src/server` flap variant, a pair
of announces five seconds apart with different AS paths counts as a flap
transition even though `consider_path_change` is `false` — the claim
says such a pair must never count when path-change mode is disabled. -/
theorem claim_C2_counterexample :
    is_flip_server 10 false
      ⟨100, "198.51.100.0/24", 64500, EKind.A, [1, 2]⟩
      ⟨105, "198.51.100.0/24", 64500, EKind.A, [1, 3]⟩ = true ∧
    count_flips (is_flip_server 10 false)
      [⟨100, "198.51.100.0/24", 64500, EKind.A, [1, 2]⟩,
       ⟨105, "198.51.100.0/24", 64500, EKind.A, [1, 3]⟩] = 1 := by
  decide

/-- Claim C2 (amended): in the `bgp-mcp` variant a consecutive pair
counts as a flap transition iff (a) the event kinds differ within the
threshold, or (b) path-change mode is enabled and both records are
announces within the threshold whose rendered AS paths differ; in the
`src/server` variant the `consider_path_change` flag is ignored and
clause (b) applies unconditionally. -/
theorem claim_C2_amended (th : Nat) (consider : Bool) (prev cur : FlapRec) :
    (is_flip_mcp th consider prev cur = true ↔
      ((cur.event ≠ prev.event ∧ (cur.ts : Int) - (prev.ts : Int) ≤ (th : Int)) ∨
       (consider = true ∧ prev.event = EKind.A ∧ cur.event = EKind.A ∧
         (cur.ts : Int) - (prev.ts : Int) ≤ (th : Int) ∧
         path_str cur.as_path ≠ path_str prev.as_path))) ∧
    (is_flip_server th consider prev cur = true ↔
      ((cur.event ≠ prev.event ∧ (cur.ts : Int) - (prev.ts : Int) ≤ (th : Int)) ∨
       (prev.event = EKind.A ∧ cur.event = EKind.A ∧
         (cur.ts : Int) - (prev.ts : Int) ≤ (th : Int) ∧
         path_str cur.as_path ≠ path_str prev.as_path))) := by
  constructor <;>
  · simp only [is_flip_mcp, is_flip_server, classical_flap, path_flap, Bool.or_eq_true,
      Bool.and_eq_true, bne_iff_ne, beq_iff_eq, decide_eq_true_eq]
    tauto

/-! ## Claim C8 -/

/-- Claim C8 (counterexample): invoking the flap run with
`end_time <= start_time` does not abort with an error — it completes
normally, reporting an empty chunk list and zero saved summaries. -/
theorem claim_C8_counterexample :
    flap_run [] 3600 0 false = Except.ok ([], 0) := by
  rw [flap_run, dif_neg (by omega)]

/-- Claim C8 (amended): a run invoked with `end_time <= start_time`
processes no chunk and writes no events, but it is not rejected: the
chunking loop simply never executes and the run terminates normally
without any error. -/
theorem claim_C8_amended (db : List (Nat × List FlapRec)) (s e : Nat)
    (consider : Bool) (h : e ≤ s) :
    flap_run db s e consider = Except.ok ([], 0) := by
  rw [flap_run, dif_neg (by omega)]

/-- Witness for claim C8: the amended statement applied at a concrete
inverted range. -/
theorem claim_C8_witness :
    (50 : Nat) ≤ 100 ∧ flap_run [] 100 50 true = Except.ok ([], 0) :=
  ⟨by decide, claim_C8_amended [] 100 50 true (by decide)⟩

/-! ## Claim C9 -/

/-- Claim C9 (counterexample): the flap loader queries only the
partition of the window's start date with no exception handling, so a
missing partition surfaces as an error instead of an empty sequence. -/
theorem claim_C9_counterexample :
    fetch_bgp_updates ([] : List (Nat × List FlapRec)) 7200 10800 =
      Except.error "relation does not exist" := rfl

/-- Claim C9 (amended): in the hijack-family loaders
(`load_announces`), a missing day partition contributes exactly what an
empty partition would — nothing — and the remaining days are still
processed; in the flap/loop loader (`fetch_bgp_updates`) a missing
partition for the window's start date instead propagates as an error. -/
theorem claim_C9_amended :
    (∀ (db : List (Nat × List ARec)) (s e d : Nat), lookup_day db d = none →
        load_announces ((d, []) :: db) s e = load_announces db s e) ∧
    (∀ (db : List (Nat × List FlapRec)) (s e : Nat), lookup_day db (s / 86400) = none →
        fetch_bgp_updates db s e = Except.error "relation does not exist") := by
  constructor
  · intro db s e d h
    have hfun : ∀ d' : Nat,
        (match lookup_day ((d, []) :: db) d' with
         | none => ([] : List ARec)
         | some rows => rows.filter (fun r : ARec => decide (s ≤ r.ts) && decide (r.ts < e))) =
        (match lookup_day db d' with
         | none => ([] : List ARec)
         | some rows => rows.filter (fun r : ARec => decide (s ≤ r.ts) && decide (r.ts < e))) := by
      intro d'
      by_cases hd : d = d'
      · subst hd
        have h1 : lookup_day ((d, ([] : List ARec)) :: db) d = some [] := by
          simp [lookup_day, List.find?]
        rw [h1, h]
        simp
      · have h1 : lookup_day ((d, ([] : List ARec)) :: db) d' = lookup_day db d' := by
          simp only [lookup_day, List.find?]
          have : ((d, ([] : List ARec)).1 == d') = false := by
            simp [hd]
          rw [this]
        rw [h1]
    unfold load_announces
    rw [funext hfun]
  · intro db s e h
    unfold fetch_bgp_updates
    rw [h]

/-- Witness for claim C9: both conjuncts of the amended statement at
concrete inputs (a store with only an empty partition, and an empty
store). -/
theorem claim_C9_witness :
    lookup_day ([] : List (Nat × List ARec)) 0 = none ∧
    load_announces [(0, [])] 0 86400 = load_announces ([] : List (Nat × List ARec)) 0 86400 ∧
    lookup_day ([] : List (Nat × List FlapRec)) 0 = none ∧
    fetch_bgp_updates ([] : List (Nat × List FlapRec)) 0 3600 =
      Except.error "relation does not exist" :=
  ⟨rfl, claim_C9_amended.1 [] 0 86400 0 rfl, rfl, claim_C9_amended.2 [] 0 3600 rfl⟩

/-! ## Claim C6 -/

/-- Folding the batched append over the batches of a list appends the
whole list. -/
theorem batches_foldl {α : Type} (n : Nat) (l : List α) (st : List α) :
    (batches n l).foldl (fun a b => a ++ b) st = st ++ l := by
  rw [batches]
  by_cases hemp : l.isEmpty
  · rw [if_pos hemp, List.isEmpty_iff.mp hemp]
    simp
  · rw [if_neg hemp]
    by_cases hn : 0 < n
    · rw [dif_pos hn, List.foldl_cons,
        batches_foldl n (l.drop n) (st ++ l.take n),
        List.append_assoc, List.take_append_drop]
    · rw [dif_neg hn]
      simp
termination_by l.length
decreasing_by
  have hne : l ≠ [] := by simpa [List.isEmpty_iff] using hemp
  have hpos : 0 < l.length := List.length_pos.mpr hne
  simp only [List.length_drop]
  omega

/-- Claim C6 (counterexample): saving the same single-event batch twice
through `save_events` leaves two copies of the event in the store —
re-processing the same window is not idempotent and the composite key is
not unique on the second run. -/
theorem claim_C6_counterexample :
    (save_events (save_events [] [⟨100, "203.0.113.0/24", "MOAS", [64500, 64501]⟩])
        [⟨100, "203.0.113.0/24", "MOAS", [64500, 64501]⟩]).countP
      (fun r => row_key r == (100, "203.0.113.0/24", [64500, 64501], "MOAS")) = 2 := by
  decide

/-- Claim C6 (amended): detection in this embedding is a pure function
of the window's input, so a second run produces the same event list; but
both event sinks append unconditionally — `save_events` is a plain
`INSERT` and `save_to_timescale` appends in batches of 100 — so saving a
run's events twice doubles the multiplicity of every composite key
instead of deduplicating: no uniqueness under
`(time, prefix, origin identity, event_type)` is enforced. -/
theorem claim_C6_amended (store rows : List HijackRow) (fstore frows : List FlapRow) :
    save_events (save_events store rows) rows = store ++ rows ++ rows ∧
    (∀ k : Nat × String × List Int × String,
      (save_events (save_events store rows) rows).countP (fun r => row_key r == k) =
        store.countP (fun r => row_key r == k) + 2 * rows.countP (fun r => row_key r == k)) ∧
    save_to_timescale fstore frows = fstore ++ frows := by
  refine ⟨?_, ?_, ?_⟩
  · simp [save_events]
  · intro k
    simp only [save_events, List.countP_append]
    ring
  · rw [save_to_timescale, batches_foldl]

/-! ## Claim C7 -/

/-- The chunking loop produces a non-empty, contiguous, per-chunk
increasing cover of `[s, e)` (auxiliary recursive proof). -/
theorem chunks_cover (s e step : Nat) (h1 : s < e) (h2 : 0 < step) :
    chunks s e step ≠ [] ∧
    (chunks s e step).head?.map Prod.fst = some s ∧
    ((chunks s e step).getLast?).map Prod.snd = some e ∧
    List.Chain' (fun a b : Nat × Nat => a.2 = b.1) (chunks s e step) ∧
    ∀ c ∈ chunks s e step, c.1 < c.2 := by
  rw [chunks, dif_pos ⟨h1, h2⟩]
  by_cases hce : min (s + step) e < e
  · obtain ⟨hne, hhead, hlast, hchain, hlt⟩ := chunks_cover (min (s + step) e) e step hce h2
    cases hrest : chunks (min (s + step) e) e step with
    | nil => exact absurd hrest hne
    | cons r t =>
      rw [hrest] at hhead hlast hchain hlt
      simp only [List.head?_cons, Option.map_some] at hhead
      refine ⟨by simp, by simp, ?_, ?_, ?_⟩
      · rw [List.getLast?_cons_cons]
        exact hlast
      · refine List.chain'_cons.mpr ⟨?_, hchain⟩
        exact (Option.some.injEq _ _ ▸ hhead).symm
      · intro c hc
        rcases List.mem_cons.mp hc with rfl | hmem
        · simp only []
          omega
        · exact hlt c hmem
  · have hmin : min (s + step) e = e := by omega
    have hnil : chunks (min (s + step) e) e step = [] := by
      rw [chunks, dif_neg]
      exact fun hcon => hce hcon.1
    rw [hnil, hmin]
    refine ⟨by simp, by simp, by simp, by simp, ?_⟩
    intro c hc
    rcases List.mem_cons.mp hc with rfl | hmem
    · exact h1
    · simp at hmem
termination_by e - s
decreasing_by omega

/-- Claim C7 (confirmed): for every window with `start < end` and every
positive chunk size, the chunk sequence of the `main` loops is non-empty,
its first chunk starts at `start`, its last chunk ends at `end`, every
chunk starts where the previous one ended, and every chunk is
non-degenerate — i.e. the chunks tile `[start, end)` exactly, with no
gap and no overlap. -/
theorem claim_C7_chunks (s e step : Nat) (h1 : s < e) (h2 : 0 < step) :
    chunks s e step ≠ [] ∧
    (chunks s e step).head?.map Prod.fst = some s ∧
    ((chunks s e step).getLast?).map Prod.snd = some e ∧
    List.Chain' (fun a b : Nat × Nat => a.2 = b.1) (chunks s e step) ∧
    ∀ c ∈ chunks s e step, c.1 < c.2 :=
  chunks_cover s e step h1 h2

/-- Witness for claim C7: the cover property applied to the window
`[0, 10)` with chunk size 3. -/
theorem claim_C7_witness :
    chunks 0 10 3 ≠ [] ∧
    (chunks 0 10 3).head?.map Prod.fst = some 0 ∧
    ((chunks 0 10 3).getLast?).map Prod.snd = some 10 ∧
    List.Chain' (fun a b : Nat × Nat => a.2 = b.1) (chunks 0 10 3) ∧
    ∀ c ∈ chunks 0 10 3, c.1 < c.2 :=
  claim_C7_chunks 0 10 3 (by decide) (by decide)

/-! ## Claim C10 -/

/-- Claim C10 (confirmed): origin extraction is total — it returns the
`None` sentinel exactly on an empty (or null, normalised to empty) AS
path and never indexes into an empty list — and each of the three
origin-based detectors is invariant under dropping the records without a
well-defined origin, because each filters such records out before
grouping; hence no emitted event counts a record without an origin AS. -/
theorem claim_C10_origin_safety (rs : List ARec) (mp me : Nat) (rb : Bool) (thr : ℚ)
    (baseline : List (String × Int)) :
    extract_origin ([] : List Int) = none ∧
    (∀ l : List Int, extract_origin l = none ↔ l = []) ∧
    detect_moas_whole_window mp me rs =
      detect_moas_whole_window mp me (rs.filter (fun r => (extract_origin r.as_path).isSome)) ∧
    detect_origin_hijack_whole_window rb thr mp me baseline rs =
      detect_origin_hijack_whole_window rb thr mp me baseline
        (rs.filter (fun r => (extract_origin r.as_path).isSome)) ∧
    detect_subprefix_hijack rs =
      detect_subprefix_hijack (rs.filter (fun r => (extract_origin r.as_path).isSome)) := by
  have hpool : announce_pool (rs.filter (fun r => (extract_origin r.as_path).isSome)) =
      announce_pool rs := by
    simp [announce_pool, List.filter_filter]
  refine ⟨rfl, ?_, ?_, ?_, ?_⟩
  · intro l
    cases l with
    | nil => simp [extract_origin]
    | cons a t => simp [extract_origin]
  · simp only [detect_moas_whole_window, hpool]
  · simp only [detect_origin_hijack_whole_window, hpool]
  · simp only [detect_subprefix_hijack, hpool]

/-! ## Claim C4 -/

/-- A prefix occurs among the group keys of a detection window iff its
group is non-empty. -/
theorem mem_keys_iff (rs : List ARec) (p : String) :
    p ∈ uniqueKeep ((announce_pool rs).map ARec.pfx) ↔
      (announce_pool rs).filter (fun r => r.pfx == p) ≠ [] := by
  rw [mem_uniqueKeep, List.mem_map]
  constructor
  · rintro ⟨r, hr, rfl⟩ hg
    have hmem : r ∈ (announce_pool rs).filter (fun r' => r'.pfx == r.pfx) := by
      simp [List.mem_filter, hr]
    rw [hg] at hmem
    exact absurd hmem (List.not_mem_nil r)
  · intro hne
    obtain ⟨r, hr⟩ := List.exists_mem_of_ne_nil _ hne
    have hr' := List.mem_filter.mp hr
    exact ⟨r, hr'.1, by simpa using hr'.2⟩

/-- Claim C4 (confirmed): the MOAS detector emits exactly one event for
a prefix iff its group of origin-carrying announces has at least two
distinct origins (each the last AS-path element), at least `min_peers`
distinct peers and at least `min_events` announces; and every emitted
event carries the sorted origin set, the distinct-peer count, the
announce total and the per-origin peer/event evidence of that group. -/
theorem claim_C4_moas (min_peers min_events : Nat) (rs : List ARec) (p : String) :
    ((detect_moas_whole_window min_peers min_events rs).countP (fun e => e.pfx == p) =
      if 2 ≤ (uniqueKeep (originsOf (groupOf rs p))).length ∧
         min_peers ≤ (peersOf (groupOf rs p)).length ∧
         min_events ≤ (groupOf rs p).length
      then 1 else 0) ∧
    ∀ e ∈ detect_moas_whole_window min_peers min_events rs, e.pfx = p →
      e.origin_asns = intSort (uniqueKeep (originsOf (groupOf rs p))) ∧
      e.distinct_peers = (peersOf (groupOf rs p)).length ∧
      e.total_events = (groupOf rs p).length ∧
      e.per_origin = per_origin_evidence (groupOf rs p) ∧
      e.first_update = minTs ((groupOf rs p).map ARec.ts) ∧
      e.last_update = maxTs ((groupOf rs p).map ARec.ts) := by
  simp only [detect_moas_whole_window, groupOf]
  have hkey : ∀ (q : String) (e : MoasEvent),
      (if (uniqueKeep (originsOf ((announce_pool rs).filter (fun r => r.pfx == q)))).length < 2
        then (none : Option MoasEvent)
       else if (peersOf ((announce_pool rs).filter (fun r => r.pfx == q))).length < min_peers ∨
           ((announce_pool rs).filter (fun r => r.pfx == q)).length < min_events then none
       else
        some { time := minTs (((announce_pool rs).filter (fun r => r.pfx == q)).map ARec.ts)
               pfx := q
               event_type := "MOAS"
               origin_asns :=
                 intSort (uniqueKeep (originsOf ((announce_pool rs).filter (fun r => r.pfx == q))))
               distinct_peers := (peersOf ((announce_pool rs).filter (fun r => r.pfx == q))).length
               total_events := ((announce_pool rs).filter (fun r => r.pfx == q)).length
               first_update := minTs (((announce_pool rs).filter (fun r => r.pfx == q)).map ARec.ts)
               last_update := maxTs (((announce_pool rs).filter (fun r => r.pfx == q)).map ARec.ts)
               per_origin :=
                 per_origin_evidence ((announce_pool rs).filter (fun r => r.pfx == q)) }) =
        some e →
      e.pfx = q := by
    intro q e h
    split_ifs at h
    cases Option.some.inj h
    rfl
  constructor
  · rw [countP_filterMap_key _ _ MoasEvent.pfx p (nodup_uniqueKeep _) hkey]
    by_cases hB : 2 ≤ (uniqueKeep (originsOf ((announce_pool rs).filter (fun r => r.pfx == p)))).length ∧
        min_peers ≤ (peersOf ((announce_pool rs).filter (fun r => r.pfx == p))).length ∧
        min_events ≤ ((announce_pool rs).filter (fun r => r.pfx == p)).length
    · have hne : (announce_pool rs).filter (fun r => r.pfx == p) ≠ [] := by
        intro hg
        rw [hg] at hB
        simp [originsOf, uniqueKeep, uniqueKeepAux] at hB
      have hsome :
          (if (uniqueKeep (originsOf ((announce_pool rs).filter (fun r => r.pfx == p)))).length < 2
            then (none : Option MoasEvent)
           else if (peersOf ((announce_pool rs).filter (fun r => r.pfx == p))).length < min_peers ∨
               ((announce_pool rs).filter (fun r => r.pfx == p)).length < min_events then none
           else
            some { time := minTs (((announce_pool rs).filter (fun r => r.pfx == p)).map ARec.ts)
                   pfx := p
                   event_type := "MOAS"
                   origin_asns :=
                     intSort (uniqueKeep (originsOf ((announce_pool rs).filter (fun r => r.pfx == p))))
                   distinct_peers := (peersOf ((announce_pool rs).filter (fun r => r.pfx == p))).length
                   total_events := ((announce_pool rs).filter (fun r => r.pfx == p)).length
                   first_update := minTs (((announce_pool rs).filter (fun r => r.pfx == p)).map ARec.ts)
                   last_update := maxTs (((announce_pool rs).filter (fun r => r.pfx == p)).map ARec.ts)
                   per_origin :=
                     per_origin_evidence ((announce_pool rs).filter (fun r => r.pfx == p)) }).isSome =
            true := by
        rw [if_neg (by omega), if_neg (by omega)]
        rfl
      rw [if_pos ⟨(mem_keys_iff rs p).mpr hne, hsome⟩, if_pos hB]
    · have hnot : ¬(p ∈ uniqueKeep ((announce_pool rs).map ARec.pfx) ∧
          (if (uniqueKeep (originsOf ((announce_pool rs).filter (fun r => r.pfx == p)))).length < 2
            then (none : Option MoasEvent)
           else if (peersOf ((announce_pool rs).filter (fun r => r.pfx == p))).length < min_peers ∨
               ((announce_pool rs).filter (fun r => r.pfx == p)).length < min_events then none
           else
            some { time := minTs (((announce_pool rs).filter (fun r => r.pfx == p)).map ARec.ts)
                   pfx := p
                   event_type := "MOAS"
                   origin_asns :=
                     intSort (uniqueKeep (originsOf ((announce_pool rs).filter (fun r => r.pfx == p))))
                   distinct_peers := (peersOf ((announce_pool rs).filter (fun r => r.pfx == p))).length
                   total_events := ((announce_pool rs).filter (fun r => r.pfx == p)).length
                   first_update := minTs (((announce_pool rs).filter (fun r => r.pfx == p)).map ARec.ts)
                   last_update := maxTs (((announce_pool rs).filter (fun r => r.pfx == p)).map ARec.ts)
                   per_origin :=
                     per_origin_evidence ((announce_pool rs).filter (fun r => r.pfx == p)) }).isSome =
            true) := by
        rintro ⟨hmem, hsome⟩
        split_ifs at hsome with h1 h2
        · simp at hsome
        · simp at hsome
        · exact hB ⟨by omega, by omega, by omega⟩
      rw [if_neg hnot, if_neg hB]
  · intro e hmem hpfx
    obtain ⟨q, hq, hfq⟩ := List.mem_filterMap.mp hmem
    have hq' : e.pfx = q := hkey q e hfq
    rw [hpfx] at hq'
    subst hq'
    split_ifs at hfq
    cases Option.some.inj hfq
    exact ⟨rfl, rfl, rfl, rfl, rfl, rfl⟩

/-! ## Claim C3 -/

/-- Claim C3 (confirmed): under the default configuration
(`REQUIRE_BASELINE = True`, `MIN_PEERS = 2`, `MIN_EVENTS = 5`,
`NEW_ORIGIN_RATIO = 0.60`), for a prefix whose window group meets the
event and peer minima, the origin-hijack detector emits an event iff
the prefix has a baseline entry, the window's dominant origin differs
from it, and the dominant origin's share of the window is at least
`3/5`; in particular a prefix without a baseline entry is skipped, and a
dominant share of `0.40` can never produce an event. -/
theorem claim_C3_origin_hijack (rs : List ARec) (baseline : List (String × Int)) (p : String)
    (htotal : 5 ≤ (groupOf rs p).length)
    (hpeers : 2 ≤ (peersOf (groupOf rs p)).length) :
    (∃ e ∈ detect_origin_hijack_whole_window true (3/5 : ℚ) 2 5 baseline rs, e.pfx = p) ↔
      ∃ b, lookup_baseline baseline p = some b ∧
        argmaxCount (originsOf (groupOf rs p)) ≠ b ∧
        (3/5 : ℚ) ≤ ((originsOf (groupOf rs p)).count (argmaxCount (originsOf (groupOf rs p))) : ℚ) /
          ((groupOf rs p).length : ℚ) := by
  simp only [groupOf] at htotal hpeers ⊢
  simp only [detect_origin_hijack_whole_window]
  refine Iff.trans (exists_mem_filterMap_key _ _ HijackEvent.pfx p ?_) ?_
  · intro q e h
    split_ifs at h
    cases Option.some.inj h
    rfl
  · constructor
    · rintro ⟨hmem, hsome⟩
      split_ifs at hsome with h1 h2 h3 h4
      · simp at hsome
      · simp at hsome
      · simp at hsome
      · simp only [Bool.or_eq_true, Bool.and_eq_true, decide_eq_true_eq,
          Option.isNone_iff_eq_none, Bool.and_eq_true] at h3 h4
        rcases h4 with h4 | ⟨hne, hratio⟩
        · exact absurd ⟨trivial, h4⟩ h3
        · obtain ⟨b, hb⟩ := Option.ne_none_iff_exists'.mp (fun hn => h3 ⟨trivial, hn⟩)
          refine ⟨b, hb, ?_, hratio⟩
          intro hcon
          rw [hb] at hne
          exact hne (by rw [hcon])
      · simp at hsome
    · rintro ⟨b, hb, hne, hratio⟩
      have hnenil : (announce_pool rs).filter (fun r => r.pfx == p) ≠ [] := by
        intro hg
        rw [hg] at htotal
        simp at htotal
      refine ⟨(mem_keys_iff rs p).mpr hnenil, ?_⟩
      dsimp only
      rw [if_neg (by omega), if_neg (by omega), if_neg (by simp [hb]),
        if_pos (by simp [hb, hne, hratio]   )]
      rfl

/-- Witness for claim C3: the characterisation applied to the concrete
five-announce window, whose dominant origin 200 holds a 4/5 share
against baseline origin 100, yields an event. -/
theorem claim_C3_witness :
    5 ≤ (groupOf ohw_input "198.51.100.0/24").length ∧
    2 ≤ (peersOf (groupOf ohw_input "198.51.100.0/24")).length ∧
    (∃ e ∈ detect_origin_hijack_whole_window true (3/5 : ℚ) 2 5 ohw_baseline ohw_input,
      e.pfx = "198.51.100.0/24") :=
  ⟨by decide, by decide,
   (claim_C3_origin_hijack ohw_input ohw_baseline "198.51.100.0/24"
       (by decide) (by decide)).mpr
     ⟨100, by decide, by decide, by
       rw [show (originsOf (groupOf ohw_input "198.51.100.0/24")).count
             (argmaxCount (originsOf (groupOf ohw_input "198.51.100.0/24"))) = 4 from by decide,
         show (groupOf ohw_input "198.51.100.0/24").length = 5 from by decide]
       norm_num⟩⟩

/-! ## Claim C5 -/

/-- Records whose prefix string fails CIDR parsing contribute nothing to
the bucket's prefix dictionary: the dictionary of a group equals the
dictionary of its parseable sub-group. -/
theorem prefix_map_skips_unparsed (g : List ARec) :
    prefix_map g = prefix_map (g.filter (fun r => (ip_network r.pfx).isSome)) := by
  suffices h : ∀ m : List (Net × List Int),
      g.foldl prefix_step m =
        (g.filter (fun r => (ip_network r.pfx).isSome)).foldl prefix_step m from h []
  induction g with
  | nil => intro m; rfl
  | cons r g ih =>
    intro m
    by_cases hr : (ip_network r.pfx).isSome
    · simp only [List.filter_cons, hr, if_true, List.foldl_cons]
      exact ih _
    · have hnone : ip_network r.pfx = none := Option.not_isSome_iff_eq_none.mp hr
      simp only [List.filter_cons, hnone, Option.isSome_none, Bool.false_eq_true, if_false, List.foldl_cons]
      have hstep : prefix_step m r = m := by
        simp [prefix_step, hnone]
      rw [hstep]
      exact ih m

/-- Claim C5 (confirmed): inside one five-minute bucket, for every pair
of successfully parsed networks where the supernet has strictly shorter
length and contains the more-specific network, the subprefix detector
emits an event naming both networks iff the more-specific network's
origin set is not a subset of the supernet's; and unparseable prefix
strings are skipped from the containment dictionary without aborting the
bucket. -/
theorem claim_C5_subprefix (rs : List ARec) (b : Nat) (sup sub : Net)
    (hsub : sub ∈
      (prefix_map ((announce_pool rs).filter (fun r => bucket_of r.ts == b))).map Prod.fst)
    (hsup : sup ∈
      (prefix_map ((announce_pool rs).filter (fun r => bucket_of r.ts == b))).map Prod.fst)
    (hlen : sup.len < sub.len)
    (hcontain : supernet_of sup sub = true) :
    ((∃ e ∈ detect_subprefix_hijack rs,
        e.time = b ∧ e.parent = sup ∧ e.more_specific = sub) ↔
      subsetOf
        (findOrigins (prefix_map ((announce_pool rs).filter (fun r => bucket_of r.ts == b))) sub)
        (findOrigins (prefix_map ((announce_pool rs).filter (fun r => bucket_of r.ts == b))) sup) =
        false) ∧
    prefix_map ((announce_pool rs).filter (fun r => bucket_of r.ts == b)) =
      prefix_map (((announce_pool rs).filter (fun r => bucket_of r.ts == b)).filter
        (fun r => (ip_network r.pfx).isSome)) := by
  refine ⟨?_, prefix_map_skips_unparsed _⟩
  simp only [detect_subprefix_hijack]
  constructor
  · rintro ⟨e, he, htime, hpar, hmore⟩
    rw [List.mem_flatMap] at he
    obtain ⟨b', hb', he⟩ := he
    rw [List.mem_flatMap] at he
    obtain ⟨pfx', hpfx', he⟩ := he
    rw [List.mem_filterMap] at he
    obtain ⟨sup', hsup', hinner⟩ := he
    split_ifs at hinner with hc1 hc2
    cases Option.some.inj hinner
    have hb'' : b' = b := htime
    have hsup'' : sup' = sup := hpar
    have hpfx'' : pfx' = sub := hmore
    subst hb''
    subst hsup''
    subst hpfx''
    simpa using hc2
  · intro hns
    have hgne : (announce_pool rs).filter (fun r => bucket_of r.ts == b) ≠ [] := by
      intro hg
      rw [hg] at hsub
      simp [prefix_map] at hsub
    have hbK : b ∈ uniqueKeep (List.map (fun r => bucket_of r.ts) (announce_pool rs)) := by
      rw [mem_uniqueKeep, List.mem_map]
      obtain ⟨r, hr⟩ := List.exists_mem_of_ne_nil _ hgne
      have hr' := List.mem_filter.mp hr
      exact ⟨r, hr'.1, by simpa using hr'.2⟩
    refine ⟨{ time := b
              parent := sup
              more_specific := sub
              sub_origins := intSort (findOrigins
                (prefix_map ((announce_pool rs).filter (fun r => bucket_of r.ts == b))) sub)
              sup_origins := intSort (findOrigins
                (prefix_map ((announce_pool rs).filter (fun r => bucket_of r.ts == b))) sup)
              distinct_peers := (uniqueKeep
                (((announce_pool rs).filter (fun r => bucket_of r.ts == b)).map
                  ARec.peer_as)).length
              total_events := ((announce_pool rs).filter (fun r => bucket_of r.ts == b)).length
              first_update := minTs
                (((announce_pool rs).filter (fun r => bucket_of r.ts == b)).map ARec.ts)
              last_update := maxTs
                (((announce_pool rs).filter (fun r => bucket_of r.ts == b)).map ARec.ts) },
           ?_, rfl, rfl, rfl⟩
    rw [List.mem_flatMap]
    refine ⟨b, hbK, ?_⟩
    rw [List.mem_flatMap]
    refine ⟨sub, ?_, ?_⟩
    · simp only [sortSub]
      exact ((List.perm_insertionSort _ _).mem_iff).mpr hsub
    · rw [List.mem_filterMap]
      refine ⟨sup, ?_, ?_⟩
      · simp only [sortSup]
        exact ((List.perm_insertionSort _ _).mem_iff).mpr hsup
      · rw [if_pos (by simp [hlen, hcontain]), if_neg (by simp [hns])]

/-- Witness for claim C5: in the input with supernet `10.0.0.0/16`
announced by origin 100 and subnet `10.0.1.0/24` announced by origin 200
in the same bucket, the characterisation applies (and the origin sets
are not in the subset relation, so an event exists). -/
theorem claim_C5_witness :
    ((⟨167772416, 24⟩ : Net) ∈
      (prefix_map ((announce_pool spw_input).filter (fun r => bucket_of r.ts == 0))).map
        Prod.fst) ∧
    ((⟨167772160, 16⟩ : Net) ∈
      (prefix_map ((announce_pool spw_input).filter (fun r => bucket_of r.ts == 0))).map
        Prod.fst) ∧
    (⟨167772160, 16⟩ : Net).len < (⟨167772416, 24⟩ : Net).len ∧
    supernet_of ⟨167772160, 16⟩ ⟨167772416, 24⟩ = true ∧
    (((∃ e ∈ detect_subprefix_hijack spw_input,
        e.time = 0 ∧ e.parent = ⟨167772160, 16⟩ ∧ e.more_specific = ⟨167772416, 24⟩) ↔
      subsetOf
        (findOrigins
          (prefix_map ((announce_pool spw_input).filter (fun r => bucket_of r.ts == 0)))
          ⟨167772416, 24⟩)
        (findOrigins
          (prefix_map ((announce_pool spw_input).filter (fun r => bucket_of r.ts == 0)))
          ⟨167772160, 16⟩) = false) ∧
    prefix_map ((announce_pool spw_input).filter (fun r => bucket_of r.ts == 0)) =
      prefix_map (((announce_pool spw_input).filter (fun r => bucket_of r.ts == 0)).filter
        (fun r => (ip_network r.pfx).isSome))) :=
  ⟨by decide, by decide, by decide, by decide,
   claim_C5_subprefix spw_input 0 ⟨167772160, 16⟩ ⟨167772416, 24⟩
     (by decide) (by decide) (by decide) (by decide)⟩

end BgpTag
